import Mathlib

/-!
# Verification of the collaborative whiteboard synchronization engine

Shallow embedding of the whiteboard application's server mutation handlers
(`server/socket/socket.js`, second revision in the file, whose line numbers the
claims cite), the durable room document (`server/models/Room.js`), and the
client optimistic-state / command-history layer (`Whiteboard.jsx`, the revision
with the emit wrapper, plus the earlier revision's reconciliation handlers).

Conventions of the embedding:
* JavaScript objects with a fixed field vocabulary become Lean structures;
  fields that may be absent become `Option`.
* JavaScript `a || b` selecting a default for an absent field becomes
  `Option.getD`, and `a ?? b` becomes `oor` (first `some` wins).
* MongoDB `$push` becomes list append, `$pull`/`filter` becomes `List.filter`,
  the per-index `$set` of `shape:update` becomes an update of the first list
  element with the matching id.
* Timestamps (`Date.now()`, `lastActivity`) are `Nat` parameters where a claim
  needs them and are otherwise not modelled.
* Socket.io delivery: `io.to(room).emit` reaches every member of the room,
  `socket.to(room).emit` reaches every member except the sender.
-/

/-- A 2-D point of a freehand stroke. -/
structure Point where
  x : Int
  y : Int
deriving DecidableEq, Repr

/-- A stored shape record (`shapeSchema` in `server/models/Room.js`, plus the
`points`/`width`/`author` fields that the `draw-end` handler writes for
materialized `path` shapes). Fields a record may lack in JavaScript carry the
schema defaults (`color "#111"`, `text ""`, …); `id` models `_id`. -/
structure Shape where
  id : String
  type : String
  x : Int
  y : Int
  w : Int
  h : Int
  color : String
  width : Int
  text : String
  points : List Point
  author : String
deriving DecidableEq, Repr

/-- A partial field patch for a shape: exactly the keys present in the
JavaScript patch object are `some`. -/
structure ShapePatch where
  type : Option String
  x : Option Int
  y : Option Int
  w : Option Int
  h : Option Int
  color : Option String
  width : Option Int
  text : Option String
  points : Option (List Point)
  author : Option String
deriving DecidableEq, Repr

/-- The all-absent patch. -/
def emptyPatch : ShapePatch :=
  ⟨none, none, none, none, none, none, none, none, none, none⟩

/-- Merge a patch into a shape: keys present in the patch overwrite, absent
keys retain the prior value. This is the common meaning of the server's
per-key `$set` (`setObj[shapes.IDX.KEY] = v` for each key of the patch) and of
the client's object spread in `applyLocalUpdate` / the `updated` handler. -/
def applyPatch (p : ShapePatch) (s : Shape) : Shape :=
  { id := s.id
    type := p.type.getD s.type
    x := p.x.getD s.x
    y := p.y.getD s.y
    w := p.w.getD s.w
    h := p.h.getD s.h
    color := p.color.getD s.color
    width := p.width.getD s.width
    text := p.text.getD s.text
    points := p.points.getD s.points
    author := p.author.getD s.author }

/-- Handler `shape:update` on the stored shape list (`socket.js`, second revision,
lines 753-803): `findIndex` locates the first shape with the matching `_id`
and the `$set` overwrites exactly the patched keys at that index; when no
shape matches (`shapeIndex === -1`) the handler returns without changing
anything. -/
def patchShapeList (id : String) (p : ShapePatch) : List Shape → List Shape
  | [] => []
  | s :: rest =>
    if s.id = id then applyPatch p s :: rest
    else s :: patchShapeList id p rest

/-- The client `updated` reconciliation handler (`Whiteboard.jsx`,
`setShapes(p => p.map(x => x._id === id ? merge-of-x-and-patch : x))`). -/
def clientUpdated (id : String) (p : ShapePatch) (shapes : List Shape) : List Shape :=
  shapes.map fun x => if x.id = id then applyPatch p x else x

/-- The patch of C1's first update: `patch = (color: "red")`. -/
def redPatch : ShapePatch :=
  { emptyPatch with color := some "red" }

/-- The patch of C1's second update: `patch = (w: 50)`. -/
def wPatch : ShapePatch :=
  { emptyPatch with w := some 50 }

theorem applyPatch_id (p : ShapePatch) (s : Shape) : (applyPatch p s).id = s.id := rfl

theorem applyPatch_red_w (s : Shape) :
    applyPatch wPatch (applyPatch redPatch s) = { s with color := "red", w := 50 } := rfl

theorem patchShapeList_skip (id : String) (p : ShapePatch) (t : Shape)
    (rest : List Shape) (h : t.id ≠ id) :
    patchShapeList id p (t :: rest) = t :: patchShapeList id p rest := by
  simp [patchShapeList, h]

theorem patchShapeList_hit (p : ShapePatch) (s : Shape) (rest : List Shape) :
    patchShapeList s.id p (s :: rest) = applyPatch p s :: rest := by
  simp [patchShapeList]

theorem patchShapeList_two_step (pre rest : List Shape) (s : Shape)
    (hpre : ∀ t ∈ pre, t.id ≠ s.id) :
    patchShapeList s.id wPatch (patchShapeList s.id redPatch (pre ++ s :: rest)) =
      pre ++ { s with color := "red", w := 50 } :: rest := by
  induction pre with
  | nil =>
    have h1 : patchShapeList s.id redPatch (s :: rest) = applyPatch redPatch s :: rest :=
      patchShapeList_hit redPatch s rest
    have hid : (applyPatch redPatch s).id = s.id := rfl
    simp only [List.nil_append, h1]
    have h2 : patchShapeList s.id wPatch (applyPatch redPatch s :: rest) =
        applyPatch wPatch (applyPatch redPatch s) :: rest := by
      have := patchShapeList_hit wPatch (applyPatch redPatch s) rest
      rw [hid] at this
      exact this
    rw [h2, applyPatch_red_w]
  | cons t pre ih =>
    have ht : t.id ≠ s.id := hpre t (List.mem_cons_self t pre)
    have hpre' : ∀ u ∈ pre, u.id ≠ s.id := fun u hu => hpre u (List.mem_cons_of_mem t hu)
    simp only [List.cons_append, patchShapeList_skip s.id _ t _ ht, ih hpre']

/-- C1: shape patching is a partial field merge, on the server store and in the
client's local state. Part 1: in general, a patch overwrites exactly the keys
it carries and every absent key retains its prior value. Part 2: on the server
shape list, patching shape `s` with `(color := "red")` then `(w := 50)` leaves
`x`, `y`, `h` (indeed every other field) at the original value and sets
`color` and `w`. Part 3: the same two-step merge on the client's `updated`
handler. -/
theorem C1_patch_partial_merge :
    (∀ (p : ShapePatch) (s : Shape),
      (applyPatch p s).x = p.x.getD s.x ∧
      (applyPatch p s).y = p.y.getD s.y ∧
      (applyPatch p s).w = p.w.getD s.w ∧
      (applyPatch p s).h = p.h.getD s.h ∧
      (applyPatch p s).color = p.color.getD s.color ∧
      (applyPatch p s).type = p.type.getD s.type ∧
      (applyPatch p s).text = p.text.getD s.text ∧
      (applyPatch p s).id = s.id) ∧
    (∀ (pre rest : List Shape) (s : Shape),
      (∀ t ∈ pre, t.id ≠ s.id) →
      patchShapeList s.id wPatch (patchShapeList s.id redPatch (pre ++ s :: rest)) =
        pre ++ { s with color := "red", w := 50 } :: rest) ∧
    (∀ (id : String) (shapes : List Shape),
      clientUpdated id wPatch (clientUpdated id redPatch shapes) =
        shapes.map fun x => if x.id = id then { x with color := "red", w := 50 } else x) := by
  refine ⟨fun p s => ⟨rfl, rfl, rfl, rfl, rfl, rfl, rfl, rfl⟩,
    patchShapeList_two_step, fun id shapes => ?_⟩
  simp only [clientUpdated, List.map_map]
  refine List.map_congr_left fun x _ => ?_
  by_cases h : x.id = id
  · have hid : (applyPatch redPatch x).id = id := by rw [applyPatch_id]; exact h
    simp only [Function.comp_apply, if_pos h, if_pos hid, applyPatch_red_w]
  · simp only [Function.comp_apply, if_neg h]

/-- Witness for C1 at a concrete shape and store. -/
theorem C1_patch_partial_merge_witness :
    patchShapeList "s1" wPatch (patchShapeList "s1" redPatch
        [⟨"s0", "rect", 1, 2, 3, 4, "blue", 2, "", [], ""⟩,
         ⟨"s1", "rect", 0, 0, 10, 10, "black", 2, "", [], ""⟩]) =
      [⟨"s0", "rect", 1, 2, 3, 4, "blue", 2, "", [], ""⟩,
       ⟨"s1", "rect", 0, 0, 50, 10, "red", 2, "", [], ""⟩] := by
  have h := C1_patch_partial_merge.2.1
    [⟨"s0", "rect", 1, 2, 3, 4, "blue", 2, "", [], ""⟩] []
    ⟨"s1", "rect", 0, 0, 10, 10, "black", 2, "", [], ""⟩
    (by decide)
  simpa using h

/-! ## Room document and the draw-end / clear-canvas / join handlers -/

/-- A completed freehand stroke as it travels in a `draw-end` payload
(`data.stroke`). Every field other than the point list may be absent in the
raw payload, and `_id` is assigned by the server when absent. -/
structure Stroke where
  id : Option String
  points : Option (List Point)
  color : Option String
  width : Option Int
  author : Option String
  w : Option Int
  h : Option Int
deriving DecidableEq, Repr

/-- One element of the room's `drawingData` array
(`drawingCommandSchema`): a `"stroke"` or `"clear"` command. `data` carries
the stroke for stroke entries; `entryId` models the extra `id` field that the
`drawing:redo` handler stores alongside `data`. -/
structure DrawEntry where
  type : String
  data : Option Stroke
  entryId : Option String
deriving DecidableEq, Repr

/-- The persisted room document (`roomSchema`): structured shapes plus the
append-only drawing log. `lastActivity` stamping is not modelled — no claim
mentions it. -/
structure RoomDoc where
  roomId : String
  shapes : List Shape
  drawingData : List DrawEntry
deriving DecidableEq, Repr

/-- Id assignment of `draw-end` — assign a fresh id when
the stroke has none. -/
def setStrokeId (freshId : String) (st : Stroke) : Stroke :=
  if st.id.isSome then st else { st with id := some freshId }

/-- The `path` shape the `draw-end` handler materializes from a completed
stroke (`strokeShape` object literal, `socket.js` second revision lines
577-589): same `_id`, `type: "path"`, the stroke's points, defaults for the
absent style fields, bounding box from the first point and the stroke's
`w`/`h` or 200. -/
def strokeShape (socketId : String) (st : Stroke) : Shape :=
  let pts := st.points.getD []
  { id := st.id.getD ""
    type := "path"
    x := ((pts.head?).map Point.x).getD 0
    y := ((pts.head?).map Point.y).getD 0
    w := st.w.getD 200
    h := st.h.getD 200
    color := st.color.getD "#111"
    width := st.width.getD 2
    text := ""
    points := pts
    author := (st.author.getD socketId) }

/-- Persistence effect of the `draw-end` handler (`socket.js` second revision
lines 546-603) on the room document, for a payload that carries a stroke:
push one `"stroke"` entry onto `drawingData` and push the materialized `path`
shape onto `shapes`. The raw relay to the other clients and the `shape:added`
broadcast are modelled separately as an effect trace. -/
def serverDrawEnd (socketId freshId : String) (stroke : Stroke) (doc : RoomDoc) : RoomDoc :=
  let st := setStrokeId freshId stroke
  { doc with
    drawingData := doc.drawingData ++ [⟨"stroke", some st, none⟩]
    shapes := doc.shapes ++ [strokeShape socketId st] }

/-- Handler `clear-canvas` (`socket.js` second revision lines 710-726):
broadcast `clear-canvas` to the room, then push a `type: "clear"` marker onto
`drawingData`. The shape collection and the existing stroke entries are left
untouched. -/
def serverClearCanvas (doc : RoomDoc) : RoomDoc :=
  { doc with drawingData := doc.drawingData ++ [⟨"clear", none, none⟩] }

/-- The shape snapshot a joining socket receives (`shapes:init`,
`socket.js` second revision line 443): the document's shape list. -/
def joinSnapshotShapes (doc : RoomDoc) : List Shape :=
  doc.shapes

/-- The stroke replay a joining socket receives (`drawing:replay`,
`socket.js` second revision lines 447-452):
`drawingData.filter(d => d.type === "stroke").map(d => d.data)`. -/
def joinReplayStrokes (doc : RoomDoc) : List Stroke :=
  (doc.drawingData.filter fun d => d.type == "stroke").filterMap DrawEntry.data

/-- C3: processing `draw-end` for a completed stroke appends exactly one new
shape to the room's shape collection — a `path` shape whose points are the
stroke's points — and exactly one new entry to the stroke log, and the two
carry the same id. -/
theorem C3_stroke_shape_duality (socketId freshId : String) (stroke : Stroke)
    (doc : RoomDoc) (pts : List Point) (hp : stroke.points = some pts) :
    ∃ (sh : Shape) (e : DrawEntry),
      (serverDrawEnd socketId freshId stroke doc).shapes = doc.shapes ++ [sh] ∧
      (serverDrawEnd socketId freshId stroke doc).drawingData = doc.drawingData ++ [e] ∧
      sh.type = "path" ∧
      sh.points = pts ∧
      e.type = "stroke" ∧
      ∃ st : Stroke, e.data = some st ∧ st.id = some sh.id ∧ st.points = some pts := by
  refine ⟨strokeShape socketId (setStrokeId freshId stroke),
    ⟨"stroke", some (setStrokeId freshId stroke), none⟩, rfl, rfl, rfl, ?_, rfl,
    setStrokeId freshId stroke, rfl, ?_, ?_⟩
  · simp [strokeShape, setStrokeId]
    cases h : stroke.id.isSome <;> simp [h, hp]
  · simp [strokeShape, setStrokeId]
    cases h : stroke.id <;> simp [h]
  · simp [setStrokeId]
    cases h : stroke.id.isSome <;> simp [h, hp]

/-- Witness for C3 at a concrete stroke and room document. -/
theorem C3_stroke_shape_duality_witness :
    ∃ (sh : Shape) (e : DrawEntry),
      (serverDrawEnd "sock1" "fresh1"
          ⟨some "st1", some [⟨1, 2⟩], some "black", some 2, none, none, none⟩
          ⟨"r1", [], []⟩).shapes = ([] : List Shape) ++ [sh] ∧
      (serverDrawEnd "sock1" "fresh1"
          ⟨some "st1", some [⟨1, 2⟩], some "black", some 2, none, none, none⟩
          ⟨"r1", [], []⟩).drawingData = ([] : List DrawEntry) ++ [e] ∧
      sh.type = "path" ∧
      sh.points = [⟨1, 2⟩] ∧
      e.type = "stroke" ∧
      ∃ st : Stroke, e.data = some st ∧ st.id = some sh.id ∧ st.points = some [⟨1, 2⟩] :=
  C3_stroke_shape_duality "sock1" "fresh1"
    ⟨some "st1", some [⟨1, 2⟩], some "black", some 2, none, none, none⟩
    ⟨"r1", [], []⟩ [⟨1, 2⟩] rfl

/-- C2 counterexample: in a room with one stored shape and one stroke entry, a
`clear-canvas` leaves both in place, so the fresh join immediately afterwards
receives a non-empty `shapes:init` list and a non-empty replay — the claim
that both are empty is false. -/
theorem C2_clear_counterexample :
    joinSnapshotShapes (serverClearCanvas
        ⟨"r1", [⟨"s1", "rect", 0, 0, 10, 10, "black", 2, "", [], ""⟩],
          [⟨"stroke", some ⟨some "st1", some [⟨1, 2⟩], none, none, none, none, none⟩, none⟩]⟩) ≠
        [] ∧
    joinReplayStrokes (serverClearCanvas
        ⟨"r1", [⟨"s1", "rect", 0, 0, 10, 10, "black", 2, "", [], ""⟩],
          [⟨"stroke", some ⟨some "st1", some [⟨1, 2⟩], none, none, none, none, none⟩, none⟩]⟩) ≠
        [] := by
  constructor <;> decide

/-- C2 as amended: `clear-canvas` only appends a `"clear"` marker to the
drawing log; it removes neither shapes nor stroke entries, so a fresh joiner
receives exactly the same `shapes:init` snapshot and the same `drawing:replay`
strokes as before the clear (the replay filter skips the marker). -/
theorem C2_clear_appends_marker_only (doc : RoomDoc) :
    joinSnapshotShapes (serverClearCanvas doc) = joinSnapshotShapes doc ∧
    joinReplayStrokes (serverClearCanvas doc) = joinReplayStrokes doc ∧
    (serverClearCanvas doc).drawingData = doc.drawingData ++ [⟨"clear", none, none⟩] := by
  refine ⟨rfl, ?_, rfl⟩
  simp [joinReplayStrokes, serverClearCanvas]

/-! ## Effect traces of the mutation handlers (ordering and failure paths) -/

/-- An observable effect of a handler, in the order the handler performs it:
a room-wide broadcast (`io.to(room).emit`), a broadcast excluding the sender
(`socket.to(room).emit`), a persistence write (`Room.updateOne`/`create`), or
an error emitted to the originating socket only (`socket.emit("error", …)`). -/
inductive Effect
  | broadcastRoom (event : String)
  | broadcastOthers (event : String)
  | persist (op : String)
  | errorToSender (msg : String)
deriving DecidableEq, Repr

/-- Effect trace of the `draw-end` handler (`socket.js` second revision lines
546-603) for a payload carrying a stroke. `ok1` is whether the `drawingData`
push persists, `ok2` whether the `shapes` push persists; a rejected `await`
jumps to the `catch`, which emits the error to the sender. The raw `draw-end`
relay to the other room members happens first, before any persistence. -/
def drawEndTrace (ok1 ok2 : Bool) : List Effect :=
  Effect.broadcastOthers "draw-end" ::
    (if ok1 then
      Effect.persist "push drawingData stroke" ::
        (if ok2 then
          [Effect.persist "push shapes path", Effect.broadcastRoom "shape:added"]
        else [Effect.errorToSender "Failed to save stroke"])
    else [Effect.errorToSender "Failed to save stroke"])

/-- Effect trace of the `clear-canvas` handler (`socket.js` second revision
lines 710-726): the room-wide `clear-canvas` broadcast comes first, then the
persistence of the clear marker; a persistence failure emits the error to the
sender after the broadcast has already gone out. -/
def clearCanvasTrace (ok : Bool) : List Effect :=
  Effect.broadcastRoom "clear-canvas" ::
    (if ok then [Effect.persist "push drawingData clear"]
    else [Effect.errorToSender "Failed to clear canvas"])

/-- C4 counterexample: when persistence fails, `clear-canvas` has already
broadcast the canonical event to the room — the claim that nothing is
broadcast on a persistence failure is false (the same holds for the raw
`draw-end` relay). -/
theorem C4_broadcast_before_persist_counterexample :
    Effect.broadcastRoom "clear-canvas" ∈ clearCanvasTrace false ∧
    (∀ op, Effect.persist op ∉ clearCanvasTrace false) ∧
    Effect.broadcastOthers "draw-end" ∈ drawEndTrace false false := by
  refine ⟨by decide, fun op h => ?_, by decide⟩
  simp [clearCanvasTrace] at h

/-- C4 as amended: for `draw-end` and `clear-canvas` the server broadcasts the
raw event to the room first, before any persistence attempt; on a persistence
failure the handler aborts and emits an error to the originating connection
only, but the initial broadcast has already been delivered. Only the canonical
`shape:added` broadcast of `draw-end` is gated on persistence: it is emitted
exactly when both writes succeed, and then after them. -/
theorem C4_broadcast_persist_order (o1 o2 o3 : Bool) :
    (drawEndTrace o1 o2).head? = some (Effect.broadcastOthers "draw-end") ∧
    (clearCanvasTrace o3).head? = some (Effect.broadcastRoom "clear-canvas") ∧
    (Effect.broadcastRoom "shape:added" ∈ drawEndTrace o1 o2 ↔ o1 = true ∧ o2 = true) ∧
    (o1 = false ∨ o2 = false →
      Effect.errorToSender "Failed to save stroke" ∈ drawEndTrace o1 o2) ∧
    (o3 = false → Effect.errorToSender "Failed to clear canvas" ∈ clearCanvasTrace o3) ∧
    (o3 = false → ∀ op, Effect.persist op ∉ clearCanvasTrace o3) := by
  cases o1 <;> cases o2 <;> cases o3 <;>
    refine ⟨rfl, rfl, by decide, by decide, by decide, ?_⟩ <;>
    intro h op hop <;> simp_all [clearCanvasTrace]

/-- Witness for C4 at the all-failing persistence outcome. -/
theorem C4_broadcast_persist_order_witness :
    Effect.errorToSender "Failed to save stroke" ∈ drawEndTrace false false ∧
    Effect.errorToSender "Failed to clear canvas" ∈ clearCanvasTrace false :=
  ⟨(C4_broadcast_persist_order false false false).2.2.2.1 (Or.inl rfl),
   (C4_broadcast_persist_order false false false).2.2.2.2.1 rfl⟩

/-! ## Connection state and the unjoined-drop question -/

/-- The `shape:add` payload: both fields may be missing, and the shape's `_id`
may be absent (modelled as the empty string, the JavaScript falsy check
`!shape._id`). -/
structure ShapeAddPayload where
  roomId : Option String
  shape : Option Shape
deriving DecidableEq, Repr

/-- The `shape:add` handler (`socket.js` second revision lines 735-751),
including the connection's joined state `conn` (the handler closure's
`currentRoom`). The handler never reads `conn`: it drops the event only when
`roomId` or `shape` is missing from the payload, assigns a fresh `_id` when
the shape has none, pushes the shape onto the addressed room's document and
broadcasts `shape:added` to that room. -/
def serverShapeAdd (conn : Option String) (freshId : String) (p : ShapeAddPayload)
    (doc : RoomDoc) : RoomDoc × List Effect :=
  match p.roomId, p.shape with
  | some _, some s =>
    let sh := if s.id = "" then { s with id := freshId } else s
    ({ doc with shapes := doc.shapes ++ [sh] }, [Effect.broadcastRoom "shape:added"])
  | some _, none => (doc, [])
  | none, _ => (doc, [])

/-- The `draw-move` handler (`socket.js` second revision lines 539-543),
including the connection's joined state `conn`, which it never reads: the
relay happens whenever the payload names a room. -/
def serverDrawMove (conn : Option String) (roomId : Option String) : List Effect :=
  match roomId with
  | some _ => [Effect.broadcastOthers "draw-move"]
  | none => []

/-- C5 counterexample: a connection that has never joined any room
(`conn = none`) sends `shape:add` with a room id in the payload — the durable
store changes and a broadcast is produced, so the claim that such events are
silently dropped is false (likewise `draw-move` still relays). -/
theorem C5_unjoined_drop_counterexample :
    (serverShapeAdd none "f1"
        ⟨some "r1", some ⟨"s1", "rect", 0, 0, 10, 10, "black", 2, "", [], ""⟩⟩
        ⟨"r1", [], []⟩).1 ≠ ⟨"r1", [], []⟩ ∧
    (serverShapeAdd none "f1"
        ⟨some "r1", some ⟨"s1", "rect", 0, 0, 10, 10, "black", 2, "", [], ""⟩⟩
        ⟨"r1", [], []⟩).2 ≠ [] ∧
    serverDrawMove none (some "r1") ≠ [] := by
  refine ⟨?_, by decide, by decide⟩
  intro h
  have := congrArg (fun d => d.shapes.length) h
  simp [serverShapeAdd] at this

/-- C5 as amended: the handlers gate only on the payload — an event is dropped
exactly when a required payload field (`roomId`, `shape`) is missing — and the
connection's joined state is never consulted, so an unjoined connection that
supplies a room id mutates the store and triggers the broadcast all the same.
-/
theorem C5_payload_gated_not_state_gated (conn conn2 : Option String)
    (freshId : String) (p : ShapeAddPayload) (doc : RoomDoc) :
    (p.roomId = none ∨ p.shape = none → serverShapeAdd conn freshId p doc = (doc, [])) ∧
    (∀ r s, p.roomId = some r → p.shape = some s →
      ∃ sh, (serverShapeAdd conn freshId p doc).1.shapes = doc.shapes ++ [sh] ∧
        (serverShapeAdd conn freshId p doc).2 = [Effect.broadcastRoom "shape:added"]) ∧
    serverShapeAdd conn freshId p doc = serverShapeAdd conn2 freshId p doc ∧
    (∀ r, serverDrawMove conn (some r) = [Effect.broadcastOthers "draw-move"]) ∧
    serverDrawMove conn none = [] := by
  refine ⟨?_, ?_, rfl, fun r => rfl, rfl⟩
  · rintro (h | h) <;> cases hr : p.roomId <;> cases hs : p.shape <;>
      simp_all [serverShapeAdd]
  · intro r s hr hs
    refine ⟨if s.id = "" then { s with id := freshId } else s, ?_, ?_⟩ <;>
      simp [serverShapeAdd, hr, hs]

/-- Witness for C5 at a concrete payload. -/
theorem C5_payload_gated_not_state_gated_witness :
    serverShapeAdd none "f1" ⟨none, none⟩ ⟨"r1", [], []⟩ = (⟨"r1", [], []⟩, []) ∧
    ∃ sh, (serverShapeAdd none "f1"
        ⟨some "r1", some ⟨"s1", "rect", 0, 0, 10, 10, "black", 2, "", [], ""⟩⟩
        ⟨"r1", [], []⟩).1.shapes = ([] : List Shape) ++ [sh] :=
  ⟨(C5_payload_gated_not_state_gated none none "f1" ⟨none, none⟩ ⟨"r1", [], []⟩).1
      (Or.inl rfl),
   let h := (C5_payload_gated_not_state_gated none none "f1"
      ⟨some "r1", some ⟨"s1", "rect", 0, 0, 10, 10, "black", 2, "", [], ""⟩⟩
      ⟨"r1", [], []⟩).2.1 "r1" ⟨"s1", "rect", 0, 0, 10, 10, "black", 2, "", [], ""⟩ rfl rfl
   ⟨h.choose, h.choose_spec.1⟩⟩

/-! ## Broadcast recipient sets -/

/-- Recipients of `io.to(roomId).emit` — every connection currently joined to
the room, the sender included when it is a member. Used by the `shape:updated`
canonical broadcast (`socket.js` second revision line 794). -/
def ioToRecipients (members : List String) : List String :=
  members

/-- Recipients of `socket.to(roomId).emit` — every connection currently joined
to the room except the emitting socket. Used by the `draw-move` relay
(`socket.js` second revision lines 539-543). -/
def socketToRecipients (members : List String) (sender : String) : List String :=
  members.filter fun m => m != sender

/-- C8: a `draw-move` relay reaches every room member except its sender and is
never echoed back to the sender; the canonical `shape:updated` broadcast
reaches every room member, the sender included. -/
theorem C8_broadcast_exclusion (members : List String) (sender : String) :
    sender ∉ socketToRecipients members sender ∧
    (∀ m ∈ members, m ≠ sender → m ∈ socketToRecipients members sender) ∧
    ioToRecipients members = members ∧
    (sender ∈ members → sender ∈ ioToRecipients members) := by
  refine ⟨?_, ?_, rfl, fun h => h⟩
  · intro h
    rcases List.mem_filter.mp h with ⟨-, hbeq⟩
    simp at hbeq
  · intro m hm hne
    exact List.mem_filter.mpr ⟨hm, by simpa using hne⟩

/-- Witness for C8 in a two-member room. -/
theorem C8_broadcast_exclusion_witness :
    "a" ∉ socketToRecipients ["a", "b"] "a" ∧ "b" ∈ socketToRecipients ["a", "b"] "a" ∧
    "a" ∈ ioToRecipients ["a", "b"] :=
  ⟨(C8_broadcast_exclusion ["a", "b"] "a").1,
   (C8_broadcast_exclusion ["a", "b"] "a").2.1 "b" (by decide) (by decide),
   (C8_broadcast_exclusion ["a", "b"] "a").2.2.2 (by decide)⟩

/-! ## Ephemeral registry: presence and activity updates -/

/-- Nullish coalescing `a ?? b`. -/
def oor (a b : Option α) : Option α :=
  match a with
  | some x => some x
  | none => b

/-- A presence record; every field may be absent — the handler starts from the
empty object when the session has no record yet. -/
structure PresenceRec where
  name : Option String
  color : Option String
  isIdle : Option Bool
  lastActive : Option Nat
deriving DecidableEq, Repr

/-- The empty presence record (`{}`). -/
def emptyPresence : PresenceRec :=
  ⟨none, none, none, none⟩

/-- The merge of the `presence:update` handler (`socket.js` first revision
lines 106-119): spread the current record, spread the patch over it, then
stamp `lastActive` with `patch.lastActive ?? cur.lastActive ?? Date.now()`. -/
def mergePresence (now : Nat) (cur patch : PresenceRec) : PresenceRec :=
  { name := oor patch.name cur.name
    color := oor patch.color cur.color
    isIdle := oor patch.isIdle cur.isIdle
    lastActive := oor patch.lastActive (oor cur.lastActive (some now)) }

/-- An activity record (`drawing`/`typing` flags and a timestamp). -/
structure ActivityRec where
  drawing : Option Bool
  typing : Option Bool
  ts : Option Nat
deriving DecidableEq, Repr

/-- The empty activity record (`{}`). -/
def emptyActivity : ActivityRec :=
  ⟨none, none, none⟩

/-- The merge of the `activity:update` handler (`socket.js` second revision
lines 500-508): spread current, spread patch, stamp `ts: Date.now()`. -/
def mergeActivity (now : Nat) (cur patch : ActivityRec) : ActivityRec :=
  { drawing := oor patch.drawing cur.drawing
    typing := oor patch.typing cur.typing
    ts := some now }

/-- Lookup in a session-keyed map (`Map.get`). -/
def lookupSid (m : List (String × α)) (sid : String) : Option α :=
  (m.find? fun kv => kv.1 == sid).map Prod.snd

/-- Store into a session-keyed map (`Map.set`): replace the entry for the key, or append a new one. -/
def setSid (m : List (String × α)) (sid : String) (v : α) : List (String × α) :=
  if m.any fun kv => kv.1 == sid then
    m.map fun kv => if kv.1 == sid then (sid, v) else kv
  else m ++ [(sid, v)]

/-- The `presence:update` handler: read the session's current record (empty
when absent), merge the patch, store the merged record, and broadcast
`(id, patch := merged)` to the room — the broadcast payload's `patch` field is
the merged record, not the submitted patch. Returns the updated presence map
and the broadcast payload. -/
def serverPresenceUpdate (now : Nat) (sid : String) (patch : PresenceRec)
    (m : List (String × PresenceRec)) :
    List (String × PresenceRec) × (String × PresenceRec) :=
  let cur := (lookupSid m sid).getD emptyPresence
  let merged := mergePresence now cur patch
  (setSid m sid merged, (sid, merged))

/-- The `activity:update` handler, same pattern as `presence:update`. -/
def serverActivityUpdate (now : Nat) (sid : String) (patch : ActivityRec)
    (m : List (String × ActivityRec)) :
    List (String × ActivityRec) × (String × ActivityRec) :=
  let cur := (lookupSid m sid).getD emptyActivity
  let merged := mergeActivity now cur patch
  (setSid m sid merged, (sid, merged))

theorem lookupSid_setSid (m : List (String × α)) (sid : String) (v : α) :
    lookupSid (setSid m sid v) sid = some v := by
  unfold setSid
  by_cases h : m.any fun kv => kv.1 == sid
  · rw [if_pos h]
    induction m with
    | nil => simp at h
    | cons kv rest ih =>
      by_cases hk : (kv.1 == sid) = true
      · simp [lookupSid, List.find?, hk]
      · have hk' : (kv.1 == sid) = false := by simpa using hk
        have hrest : rest.any (fun kv => kv.1 == sid) = true := by
          simp only [List.any_cons, hk', Bool.false_or] at h
          exact h
        simp only [List.map_cons, hk', Bool.false_eq_true, if_false]
        simpa [lookupSid, List.find?, hk'] using ih hrest
  · rw [if_neg h]
    induction m with
    | nil => simp [lookupSid, List.find?]
    | cons kv rest ih =>
      have hk : (kv.1 == sid) = false := by
        by_contra hc
        exact h (by simp_all)
      have hrest : ¬ rest.any fun kv => kv.1 == sid := by
        intro hc
        exact h (by simp [List.any_cons, hc])
      simpa [lookupSid, List.find?, hk] using ih hrest

/-- C10: for `presence:update` and `activity:update` the record broadcast to
the room under the `patch` field is the session's entire merged record as
stored in the registry — previously-set fields are retained where the patch is
silent, patched fields overwrite, and `lastActive` / `ts` are stamped — so
receivers may treat the payload as a full replacement of the session's record.
-/
theorem C10_broadcast_full_merged_record (now : Nat) (sid : String)
    (p : PresenceRec) (a : ActivityRec) (mp : List (String × PresenceRec))
    (ma : List (String × ActivityRec)) :
    ((serverPresenceUpdate now sid p mp).2.1 = sid ∧
      some (serverPresenceUpdate now sid p mp).2.2 =
        lookupSid (serverPresenceUpdate now sid p mp).1 sid ∧
      (∀ cur, lookupSid mp sid = some cur →
        (p.name = none → (serverPresenceUpdate now sid p mp).2.2.name = cur.name) ∧
        (∀ v, p.name = some v → (serverPresenceUpdate now sid p mp).2.2.name = some v) ∧
        (p.isIdle = none → (serverPresenceUpdate now sid p mp).2.2.isIdle = cur.isIdle) ∧
        (serverPresenceUpdate now sid p mp).2.2.lastActive =
          oor p.lastActive (oor cur.lastActive (some now)))) ∧
    ((serverActivityUpdate now sid a ma).2.1 = sid ∧
      some (serverActivityUpdate now sid a ma).2.2 =
        lookupSid (serverActivityUpdate now sid a ma).1 sid ∧
      (serverActivityUpdate now sid a ma).2.2.ts = some now ∧
      (∀ cur, lookupSid ma sid = some cur →
        (a.drawing = none → (serverActivityUpdate now sid a ma).2.2.drawing = cur.drawing) ∧
        (a.typing = none → (serverActivityUpdate now sid a ma).2.2.typing = cur.typing))) := by
  refine ⟨⟨rfl, (lookupSid_setSid mp sid _).symm, ?_⟩,
    rfl, (lookupSid_setSid ma sid _).symm, rfl, ?_⟩
  · intro cur hcur
    refine ⟨fun hn => ?_, fun v hv => ?_, fun hn => ?_, ?_⟩
    · simp [serverPresenceUpdate, mergePresence, hcur, oor, hn]
    · simp [serverPresenceUpdate, mergePresence, hcur, oor, hv]
    · simp [serverPresenceUpdate, mergePresence, hcur, oor, hn]
    · simp [serverPresenceUpdate, mergePresence, hcur]
  · intro cur hcur
    refine ⟨fun hn => ?_, fun hn => ?_⟩ <;>
      simp [serverActivityUpdate, mergeActivity, hcur, oor, hn]

/-- Witness for C10 on a registry holding a prior record for the session. -/
theorem C10_broadcast_full_merged_record_witness :
    (serverPresenceUpdate 7 "sid1" ⟨none, none, some true, none⟩
        [("sid1", ⟨some "Ada", some "#f00", some false, some 3⟩)]).2.2.name = some "Ada" ∧
    (serverPresenceUpdate 7 "sid1" ⟨none, none, some true, none⟩
        [("sid1", ⟨some "Ada", some "#f00", some false, some 3⟩)]).2.2.lastActive =
      oor none (oor (some 3) (some 7)) :=
  ⟨(((C10_broadcast_full_merged_record 7 "sid1" ⟨none, none, some true, none⟩
      ⟨none, none, none⟩ [("sid1", ⟨some "Ada", some "#f00", some false, some 3⟩)]
      []).1.2.2) ⟨some "Ada", some "#f00", some false, some 3⟩ (by decide)).1 rfl,
   (((C10_broadcast_full_merged_record 7 "sid1" ⟨none, none, some true, none⟩
      ⟨none, none, none⟩ [("sid1", ⟨some "Ada", some "#f00", some false, some 3⟩)]
      []).1.2.2) ⟨some "Ada", some "#f00", some false, some 3⟩ (by decide)).2.2.2⟩

/-! ## Server-side drawing undo -/

/-- The id match of the `drawing:undo` id branch:
`(d.id && d.id === id) || (d.data && d.data._id === id)`. -/
def entryMatchesId (id : String) (d : DrawEntry) : Bool :=
  (match d.entryId with
    | some e => e == id
    | none => false) ||
  (match d.data with
    | some st =>
      match st.id with
      | some i => i == id
      | none => false
    | none => false)

/-- The author test of the no-id branch:
`it?.data?.author ? it.data.author === socket.id : true` — an entry whose
stroke has no author (a falsy `author`, modelled `none`) counts as the
requester's own. -/
def authorCheck (sid : String) (d : DrawEntry) : Bool :=
  match d.data with
  | some st =>
    match st.author with
    | some a => a == sid
    | none => true
  | none => true

/-- Index of the last element satisfying `p` (the handler's backwards `for`
loop). -/
def findLastIdx (p : α → Bool) : List α → Option Nat
  | [] => none
  | a :: rest =>
    match findLastIdx p rest with
    | some i => some (i + 1)
    | none => if p a then some 0 else none

/-- The `drawing:undo` handler's computation of the new drawing log
(`socket.js` second revision lines 609-664). With an id: keep only the entries
not matching the id, and report a change when the length shrank. Without an
id: drop the last `"stroke"` entry that passes the author check for the
requesting socket, falling back to the last `"stroke"` entry of any author;
report no change when nothing was found. `none` means the handler returns
without persisting or broadcasting. -/
def drawingUndoCompute (sid : String) (idArg : Option String)
    (arr : List DrawEntry) : Option (List DrawEntry) :=
  match idArg with
  | some id =>
    let arr2 := arr.filter fun d => !(entryMatchesId id d)
    if arr2.length = arr.length then none else some arr2
  | none =>
    let idx :=
      match findLastIdx (fun d => d.type == "stroke" && authorCheck sid d) arr with
      | some i => some i
      | none => findLastIdx (fun d => d.type == "stroke") arr
    match idx with
    | some i => some (arr.eraseIdx i)
    | none => none

/-- The `drawing:undo` handler on the room document: when the computation
reports a change, persist the new log and broadcast the full stroke replay to
the room; otherwise do nothing. The shape collection is never touched. -/
def serverDrawingUndo (sid : String) (idArg : Option String) (doc : RoomDoc) :
    RoomDoc × List Effect :=
  match drawingUndoCompute sid idArg doc.drawingData with
  | some arr2 =>
    ({ doc with drawingData := arr2 },
      [Effect.persist "set drawingData", Effect.broadcastRoom "drawing:replay"])
  | none => (doc, [])

/-- C9 counterexample: undoing stroke `"st1"` by id removes the log entry but
leaves the materialized `path` shape with the same id in the shape collection,
so the claim that the materialized shape is removed as well is false. -/
theorem C9_drawing_undo_counterexample :
    (serverDrawingUndo "sid1" (some "st1")
        ⟨"r1",
          [⟨"st1", "path", 1, 2, 200, 200, "#111", 2, "", [⟨1, 2⟩], "sid1"⟩],
          [⟨"stroke", some ⟨some "st1", some [⟨1, 2⟩], none, none, some "sid1", none, none⟩,
            none⟩]⟩).1.drawingData = [] ∧
    (serverDrawingUndo "sid1" (some "st1")
        ⟨"r1",
          [⟨"st1", "path", 1, 2, 200, 200, "#111", 2, "", [⟨1, 2⟩], "sid1"⟩],
          [⟨"stroke", some ⟨some "st1", some [⟨1, 2⟩], none, none, some "sid1", none, none⟩,
            none⟩]⟩).1.shapes =
      [⟨"st1", "path", 1, 2, 200, 200, "#111", 2, "", [⟨1, 2⟩], "sid1"⟩] := by
  constructor <;> decide

theorem findLastIdx_none (p : α → Bool) (l : List α) (h : ∀ a ∈ l, p a = false) :
    findLastIdx p l = none := by
  induction l with
  | nil => rfl
  | cons a rest ih =>
    have ha := h a (List.mem_cons_self a rest)
    have hrest := ih fun b hb => h b (List.mem_cons_of_mem a hb)
    simp [findLastIdx, hrest, ha]

theorem findLastIdx_append (p : α → Bool) (pre post : List α) (e : α)
    (he : p e = true) (hpost : ∀ a ∈ post, p a = false) :
    findLastIdx p (pre ++ e :: post) = some pre.length := by
  induction pre with
  | nil =>
    simp [findLastIdx, findLastIdx_none p post hpost, he]
  | cons a pre ih =>
    simp [findLastIdx, ih]

theorem eraseIdx_append_length (pre post : List α) (e : α) :
    (pre ++ e :: post).eraseIdx pre.length = pre ++ post := by
  induction pre with
  | nil => rfl
  | cons a pre ih => simpa [List.eraseIdx] using ih

theorem filter_length_eq_iff (p : α → Bool) (l : List α) :
    (l.filter p).length = l.length ↔ ∀ a ∈ l, p a = true := by
  induction l with
  | nil => simp
  | cons a rest ih =>
    by_cases ha : p a = true
    · simp [List.filter_cons, ha, ih]
    · have ha' : p a = false := by simpa using ha
      simp only [List.filter_cons, ha', Bool.false_eq_true, if_false, List.length_cons]
      constructor
      · intro h
        exact absurd h (Nat.ne_of_lt (Nat.lt_succ_of_le (List.length_filter_le p rest)))
      · intro h
        exact absurd (h a (List.mem_cons_self a rest)) (by simp [ha'])

/-- C9 as amended. Id branch: exactly the log entries matching the id are
removed — the materialized `path` shape is never removed — and the replay is
broadcast only when some entry matched; with no match the handler changes
nothing and broadcasts nothing. No-id branch: the most recent `"stroke"` entry
passing the author check for the requester (an authorless stroke counts as the
requester's) is removed, falling back to the most recent `"stroke"` entry of
any author; the shape collection is untouched in every branch. -/
theorem C9_drawing_undo_selection (sid : String) (doc : RoomDoc) :
    (∀ idArg, (serverDrawingUndo sid idArg doc).1.shapes = doc.shapes) ∧
    (∀ id, (∃ d ∈ doc.drawingData, entryMatchesId id d = true) →
      serverDrawingUndo sid (some id) doc =
        ({ doc with
            drawingData := doc.drawingData.filter fun d => !(entryMatchesId id d) },
          [Effect.persist "set drawingData", Effect.broadcastRoom "drawing:replay"])) ∧
    (∀ id, (∀ d ∈ doc.drawingData, entryMatchesId id d = false) →
      serverDrawingUndo sid (some id) doc = (doc, [])) ∧
    (∀ pre e post, doc.drawingData = pre ++ e :: post →
      (e.type == "stroke" && authorCheck sid e) = true →
      (∀ d ∈ post, (d.type == "stroke" && authorCheck sid d) = false) →
      serverDrawingUndo sid none doc =
        ({ doc with drawingData := pre ++ post },
          [Effect.persist "set drawingData", Effect.broadcastRoom "drawing:replay"])) ∧
    ((∀ d ∈ doc.drawingData, (d.type == "stroke" && authorCheck sid d) = false) →
      ∀ pre e post, doc.drawingData = pre ++ e :: post →
      (e.type == "stroke") = true →
      (∀ d ∈ post, (d.type == "stroke") = false) →
      serverDrawingUndo sid none doc =
        ({ doc with drawingData := pre ++ post },
          [Effect.persist "set drawingData", Effect.broadcastRoom "drawing:replay"])) := by
  refine ⟨?_, ?_, ?_, ?_, ?_⟩
  · intro idArg
    unfold serverDrawingUndo
    cases drawingUndoCompute sid idArg doc.drawingData <;> rfl
  · intro id hex
    have hne : ¬ ((doc.drawingData.filter fun d => !(entryMatchesId id d)).length =
        doc.drawingData.length) := by
      intro hlen
      rcases hex with ⟨d, hd, hmatch⟩
      have := (filter_length_eq_iff _ _).mp hlen d hd
      simp [hmatch] at this
    simp [serverDrawingUndo, drawingUndoCompute, hne]
  · intro id hall
    have heq : (doc.drawingData.filter fun d => !(entryMatchesId id d)).length =
        doc.drawingData.length := by
      refine (filter_length_eq_iff _ _).mpr fun a ha => ?_
      simp [hall a ha]
    simp [serverDrawingUndo, drawingUndoCompute, heq]
  · intro pre e post hsplit he hpost
    have hidx : findLastIdx (fun d => d.type == "stroke" && authorCheck sid d)
        doc.drawingData = some pre.length := by
      rw [hsplit]; exact findLastIdx_append _ pre post e he hpost
    simp only [serverDrawingUndo, drawingUndoCompute, hidx]
    rw [hsplit, eraseIdx_append_length]
  · intro hnone pre e post hsplit he hpost
    have hidx1 : findLastIdx (fun d => d.type == "stroke" && authorCheck sid d)
        doc.drawingData = none := findLastIdx_none _ _ hnone
    have hidx2 : findLastIdx (fun d => d.type == "stroke") doc.drawingData =
        some pre.length := by
      rw [hsplit]; exact findLastIdx_append _ pre post e he hpost
    simp only [serverDrawingUndo, drawingUndoCompute, hidx1, hidx2]
    rw [hsplit, eraseIdx_append_length]

/-- Witness for C9: an id-directed undo in a one-entry log. -/
theorem C9_drawing_undo_selection_witness :
    serverDrawingUndo "sid1" (some "st1")
        ⟨"r1", [],
          [⟨"stroke", some ⟨some "st1", some [⟨1, 2⟩], none, none, some "sid1", none, none⟩,
            none⟩]⟩ =
      (⟨"r1", [], []⟩,
        [Effect.persist "set drawingData", Effect.broadcastRoom "drawing:replay"]) := by
  have h := (C9_drawing_undo_selection "sid1"
    ⟨"r1", [],
      [⟨"stroke", some ⟨some "st1", some [⟨1, 2⟩], none, none, some "sid1", none, none⟩,
        none⟩]⟩).2.1 "st1"
    ⟨⟨"stroke", some ⟨some "st1", some [⟨1, 2⟩], none, none, some "sid1", none, none⟩, none⟩,
      by decide, by decide⟩
  simpa using h

/-! ## Client optimistic state and command history (`Whiteboard.jsx`,
revision with the emit wrapper, `part_004`) -/

/-- Optimistic helper `applyLocalAdd`: append the shape unless a shape with
its id is already present. -/
def applyLocalAdd (shape : Shape) (shapes : List Shape) : List Shape :=
  if shapes.any fun x => x.id == shape.id then shapes else shapes ++ [shape]

/-- Optimistic helper `applyLocalDelete`: drop every shape with the id. -/
def applyLocalDelete (id : String) (shapes : List Shape) : List Shape :=
  shapes.filter fun s => s.id != id

/-- Optimistic helper `applyLocalUpdate`: merge the patch into every shape with the id (object
spread). -/
def applyLocalUpdate (id : String) (patch : ShapePatch) (shapes : List Shape) : List Shape :=
  shapes.map fun s => if s.id = id then applyPatch patch s else s

/-- A command recorded on the undo stack by the emit wrapper and the
move/resize/nudge handlers, projected to its effect on the local shape list:
`add` (do `performAdd`, undo `performDelete`), `del` with the snapshot found
in the current state (do `performDelete`, undo `performAdd` of the snapshot),
`update` with the captured before/after field patches, and `clearCmd` with the
full snapshot of the state (do `performClear`, undo restore the snapshot). -/
inductive Cmd
  | add (shape : Shape)
  | del (snap : Shape)
  | update (id : String) (before after : ShapePatch)
  | clearCmd (before : List Shape)
deriving DecidableEq, Repr

/-- The `do` action of a command on the local shape state. -/
def doCmd : Cmd → List Shape → List Shape
  | .add s, st => applyLocalAdd s st
  | .del s, st => applyLocalDelete s.id st
  | .update id _ after, st => applyLocalUpdate id after st
  | .clearCmd _, _ => []

/-- The `undo` action of a command on the local shape state. -/
def undoCmd : Cmd → List Shape → List Shape
  | .add s, st => applyLocalDelete s.id st
  | .del s, st => applyLocalAdd s st
  | .update id before _, st => applyLocalUpdate id before st
  | .clearCmd before, _ => before

/-- Execute all `do` actions left to right. -/
def doAll (cmds : List Cmd) (st : List Shape) : List Shape :=
  cmds.foldl (fun s c => doCmd c s) st

/-- Execute all `undo` actions in reverse order of the command list. -/
def undoAll (cmds : List Cmd) (st : List Shape) : List Shape :=
  cmds.foldr (fun c s => undoCmd c s) st

/-- A command is faithfully recorded against the state it executed on — what
the wrapper guarantees when it builds the command: an added shape's id is
fresh, a delete snapshot is the unique shape with its id in the state, an
update's `before` patch undoes its `after` patch on the affected shapes, and a
clear snapshot is the state itself. -/
def wfCmd : Cmd → List Shape → Prop
  | .add s, st => ∀ t ∈ st, t.id ≠ s.id
  | .del s, st => s ∈ st ∧ st.countP (fun t => t.id == s.id) = 1
  | .update id before after, st =>
    ∀ t ∈ st, t.id = id → applyPatch before (applyPatch after t) = t
  | .clearCmd before, st => before = st

instance instDecWfCmd (c : Cmd) (st : List Shape) : Decidable (wfCmd c st) :=
  match c with
  | .add s => inferInstanceAs (Decidable (∀ t ∈ st, t.id ≠ s.id))
  | .del s => inferInstanceAs (Decidable (_ ∧ _))
  | .update id before after =>
    inferInstanceAs (Decidable (∀ t ∈ st, t.id = id → applyPatch before (applyPatch after t) = t))
  | .clearCmd before => inferInstanceAs (Decidable (before = st))

/-- Every command of the sequence is faithfully recorded against the state it
executes on. -/
def wfSeq : List Cmd → List Shape → Prop
  | [], _ => True
  | c :: rest, st => wfCmd c st ∧ wfSeq rest (doCmd c st)

instance instDecWfSeq : (cmds : List Cmd) → (st : List Shape) → Decidable (wfSeq cmds st)
  | [], _ => inferInstanceAs (Decidable True)
  | c :: rest, st =>
    have : Decidable (wfSeq rest (doCmd c st)) := instDecWfSeq rest (doCmd c st)
    inferInstanceAs (Decidable (_ ∧ _))

theorem undoCmd_doCmd_perm (c : Cmd) (st st2 : List Shape) (hwf : wfCmd c st)
    (hp : List.Perm st2 (doCmd c st)) : List.Perm (undoCmd c st2) st := by
  cases c with
  | add s =>
    have hany : (st.any fun x => x.id == s.id) = false := by
      rw [List.any_eq_false]
      intro t ht
      simpa using hwf t ht
    have hdo : doCmd (Cmd.add s) st = st ++ [s] := by
      simp [doCmd, applyLocalAdd, hany]
    rw [hdo] at hp
    have h1 : List.Perm (st2.filter fun t => t.id != s.id)
        ((st ++ [s]).filter fun t => t.id != s.id) := hp.filter _
    have h2 : (st ++ [s]).filter (fun t => t.id != s.id) = st := by
      rw [List.filter_append]
      have hl : st.filter (fun t => t.id != s.id) = st :=
        List.filter_eq_self.mpr fun t ht => by simpa using hwf t ht
      have hr : [s].filter (fun t => t.id != s.id) = [] := by simp
      rw [hl, hr, List.append_nil]
    rw [h2] at h1
    exact h1
  | del s =>
    rcases hwf with ⟨hmem, hcount⟩
    have hdo : doCmd (Cmd.del s) st = st.filter fun t => t.id != s.id := rfl
    rw [hdo] at hp
    have hnot : (st2.any fun x => x.id == s.id) = false := by
      rw [List.any_eq_false]
      intro t ht
      have : t ∈ st.filter fun t => t.id != s.id := hp.mem_iff.mp ht
      rcases List.mem_filter.mp this with ⟨-, hb⟩
      simpa using hb
    have hundo : undoCmd (Cmd.del s) st2 = st2 ++ [s] := by
      simp [undoCmd, applyLocalAdd, hnot]
    have hsingle : st.filter (fun t => !(t.id != s.id)) = [s] := by
      have hlen : (st.filter fun t => !(t.id != s.id)).length = 1 := by
        have : (st.filter fun t => t.id == s.id) = st.filter fun t => !(t.id != s.id) := by
          refine List.filter_congr fun t _ => ?_
          simp [bne]
        rw [← this, ← List.countP_eq_length_filter]
        exact hcount
      rcases List.length_eq_one.mp hlen with ⟨a, ha⟩
      have hsmem : s ∈ st.filter fun t => !(t.id != s.id) :=
        List.mem_filter.mpr ⟨hmem, by simp⟩
      rw [ha] at hsmem ⊢
      simp at hsmem
      rw [hsmem]
    have hperm2 : List.Perm ((st.filter fun t => t.id != s.id) ++ [s]) st := by
      have := List.filter_append_perm (fun t => t.id != s.id) st
      rw [hsingle] at this
      exact this
    rw [hundo]
    exact (hp.append_right [s]).trans hperm2
  | update uid before after =>
    have hdo : doCmd (Cmd.update uid before after) st =
        st.map fun t => if t.id = uid then applyPatch after t else t := rfl
    rw [hdo] at hp
    have h1 : List.Perm (undoCmd (Cmd.update uid before after) st2)
        ((st.map fun t => if t.id = uid then applyPatch after t else t).map
          fun t => if t.id = uid then applyPatch before t else t) := hp.map _
    have h2 : ((st.map fun t => if t.id = uid then applyPatch after t else t).map
        fun t => if t.id = uid then applyPatch before t else t) = st := by
      rw [List.map_map]
      have heach : st.map ((fun t => if t.id = uid then applyPatch before t else t) ∘
          fun t => if t.id = uid then applyPatch after t else t) = st.map id := by
        refine List.map_congr_left fun t ht => ?_
        by_cases h : t.id = uid
        · have hid : (applyPatch after t).id = uid := by rw [applyPatch_id]; exact h
          simp only [Function.comp_apply, if_pos h, if_pos hid, id]
          exact hwf t ht h
        · simp only [Function.comp_apply, if_neg h, id]
      rw [heach, List.map_id]
    rw [h2] at h1
    exact h1
  | clearCmd before =>
    have : undoCmd (Cmd.clearCmd before) st2 = before := rfl
    rw [this, hwf]

/-- Round trip: doing every command and then undoing each in reverse order
returns a permutation of the initial state, whenever each command was
faithfully recorded. -/
theorem undoAll_doAll_perm (cmds : List Cmd) (st : List Shape)
    (hwf : wfSeq cmds st) : List.Perm (undoAll cmds (doAll cmds st)) st := by
  induction cmds generalizing st with
  | nil => exact List.Perm.refl st
  | cons c rest ih =>
    rcases hwf with ⟨h1, h2⟩
    have hstep : doAll (c :: rest) st = doAll rest (doCmd c st) := rfl
    have hu : undoAll (c :: rest) (doAll (c :: rest) st) =
        undoCmd c (undoAll rest (doAll rest (doCmd c st))) := by
      rw [hstep]; rfl
    rw [hu]
    exact undoCmd_doCmd_perm c st _ h1 (ih (doCmd c st) h2)

/-- The per-client history: undo stack, redo stack, and the local shape state
the commands act on. The JavaScript arrays push/pop at their end; the stacks
are modelled with the top at the head. -/
structure Hist where
  undoStack : List Cmd
  redoStack : List Cmd
  state : List Shape
deriving DecidableEq, Repr

/-- History push `pushCmd`: push onto the undo stack and clear the redo stack. -/
def pushCmd (c : Cmd) (h : Hist) : Hist :=
  { h with undoStack := c :: h.undoStack, redoStack := [] }

/-- History `undo()`: pop the undo stack; a no-op when empty; otherwise execute the
command's `undo` and push the command onto the redo stack. -/
def undo (h : Hist) : Hist :=
  match h.undoStack with
  | [] => h
  | c :: rest =>
    { undoStack := rest, redoStack := c :: h.redoStack, state := undoCmd c h.state }

/-- History `redo()`: pop the redo stack; a no-op when empty; otherwise execute the
command's `do` and push the command back onto the undo stack. -/
def redo (h : Hist) : Hist :=
  match h.redoStack with
  | [] => h
  | c :: rest =>
    { undoStack := c :: h.undoStack, redoStack := rest, state := doCmd c h.state }

/-- C6 counterexample: from the state `[a, b]`, the single faithfully recorded
command "delete a" does and then undoes to `[b, a]` — the deleted shape is
re-appended at the end of the list — which is not bit-for-bit equal to the
pre-command state `[a, b]`. -/
theorem C6_undo_inverse_counterexample :
    wfSeq [Cmd.del ⟨"a", "rect", 0, 0, 1, 1, "black", 2, "", [], ""⟩]
      [⟨"a", "rect", 0, 0, 1, 1, "black", 2, "", [], ""⟩,
       ⟨"b", "rect", 5, 5, 1, 1, "black", 2, "", [], ""⟩] ∧
    undoAll [Cmd.del ⟨"a", "rect", 0, 0, 1, 1, "black", 2, "", [], ""⟩]
        (doAll [Cmd.del ⟨"a", "rect", 0, 0, 1, 1, "black", 2, "", [], ""⟩]
          [⟨"a", "rect", 0, 0, 1, 1, "black", 2, "", [], ""⟩,
           ⟨"b", "rect", 5, 5, 1, 1, "black", 2, "", [], ""⟩]) =
      [⟨"b", "rect", 5, 5, 1, 1, "black", 2, "", [], ""⟩,
       ⟨"a", "rect", 0, 0, 1, 1, "black", 2, "", [], ""⟩] ∧
    undoAll [Cmd.del ⟨"a", "rect", 0, 0, 1, 1, "black", 2, "", [], ""⟩]
        (doAll [Cmd.del ⟨"a", "rect", 0, 0, 1, 1, "black", 2, "", [], ""⟩]
          [⟨"a", "rect", 0, 0, 1, 1, "black", 2, "", [], ""⟩,
           ⟨"b", "rect", 5, 5, 1, 1, "black", 2, "", [], ""⟩]) ≠
      [⟨"a", "rect", 0, 0, 1, 1, "black", 2, "", [], ""⟩,
       ⟨"b", "rect", 5, 5, 1, 1, "black", 2, "", [], ""⟩] := by
  refine ⟨by decide, by decide, by decide⟩

/-- C6 as amended: executing all `do`s and then all `undo`s in reverse order
returns the local shape state equal to the pre-command state up to reordering
of the shape list (a delete's undo re-appends the snapshot at the end), for
every faithfully recorded command sequence; `undo()` moves the popped command
to the redo stack and executes its inverse, `redo()` moves it back and
re-executes, and both are no-ops on an empty stack. -/
theorem C6_undo_redo_inverse_up_to_perm :
    (∀ (cmds : List Cmd) (st : List Shape), wfSeq cmds st →
      List.Perm (undoAll cmds (doAll cmds st)) st) ∧
    (∀ h : Hist, h.undoStack = [] → undo h = h) ∧
    (∀ h : Hist, h.redoStack = [] → redo h = h) ∧
    (∀ (h : Hist) (c : Cmd) (rest : List Cmd), h.undoStack = c :: rest →
      undo h = ⟨rest, c :: h.redoStack, undoCmd c h.state⟩) ∧
    (∀ (h : Hist) (c : Cmd) (rest : List Cmd), h.redoStack = c :: rest →
      redo h = ⟨c :: h.undoStack, rest, doCmd c h.state⟩) := by
  refine ⟨undoAll_doAll_perm, ?_, ?_, ?_, ?_⟩
  · intro h hh
    unfold undo
    rw [hh]
  · intro h hh
    unfold redo
    rw [hh]
  · intro h c rest hh
    unfold undo
    rw [hh]
  · intro h c rest hh
    unfold redo
    rw [hh]

/-- Witness for C6: the round trip of the delete command is a permutation of
the initial two-shape state, and `undo` is a no-op on an empty history. -/
theorem C6_undo_redo_inverse_up_to_perm_witness :
    List.Perm
      (undoAll [Cmd.del ⟨"a", "rect", 0, 0, 1, 1, "black", 2, "", [], ""⟩]
        (doAll [Cmd.del ⟨"a", "rect", 0, 0, 1, 1, "black", 2, "", [], ""⟩]
          [⟨"a", "rect", 0, 0, 1, 1, "black", 2, "", [], ""⟩,
           ⟨"b", "rect", 5, 5, 1, 1, "black", 2, "", [], ""⟩]))
      [⟨"a", "rect", 0, 0, 1, 1, "black", 2, "", [], ""⟩,
       ⟨"b", "rect", 5, 5, 1, 1, "black", 2, "", [], ""⟩] ∧
    undo ⟨[], [], []⟩ = ⟨[], [], []⟩ :=
  ⟨C6_undo_redo_inverse_up_to_perm.1
      [Cmd.del ⟨"a", "rect", 0, 0, 1, 1, "black", 2, "", [], ""⟩]
      [⟨"a", "rect", 0, 0, 1, 1, "black", 2, "", [], ""⟩,
       ⟨"b", "rect", 5, 5, 1, 1, "black", 2, "", [], ""⟩] (by decide),
   C6_undo_redo_inverse_up_to_perm.2.1 ⟨[], [], []⟩ rfl⟩

/-! ## Client reconciliation of canonical events -/

/-- The `shape:added` handler of the current client revision (`part_004` /
`part_003`): append unless a shape with the id is already present. -/
def clientAdded (s : Shape) (shapes : List Shape) : List Shape :=
  if shapes.any fun x => x.id == s.id then shapes else shapes ++ [s]

/-- The `shape:added` handler of the earlier client revision (`part_002`,
lines 113): unconditional append, no duplicate check. -/
def clientAddedV2 (s : Shape) (shapes : List Shape) : List Shape :=
  shapes ++ [s]

/-- The `shape:deleted` handler (identical in both revisions): drop every
shape with the id. -/
def clientDeleted (id : String) (shapes : List Shape) : List Shape :=
  shapes.filter fun x => x.id != id

theorem getD_getD (o : Option α) (a : α) : o.getD (o.getD a) = o.getD a := by
  cases o <;> rfl

theorem applyPatch_idem (p : ShapePatch) (s : Shape) :
    applyPatch p (applyPatch p s) = applyPatch p s := by
  simp [applyPatch, getD_getD]

/-- C7 counterexample: in the earlier client revision the `shape:added`
handler appends without a duplicate check, so a re-delivered `shape:added`
duplicates the shape — applying the event twice differs from applying it
once. -/
theorem C7_idempotent_counterexample :
    clientAddedV2 ⟨"s1", "rect", 0, 0, 10, 10, "black", 2, "", [], ""⟩
        (clientAddedV2 ⟨"s1", "rect", 0, 0, 10, 10, "black", 2, "", [], ""⟩ []) ≠
      clientAddedV2 ⟨"s1", "rect", 0, 0, 10, 10, "black", 2, "", [], ""⟩ [] := by
  decide

/-- C7 as amended: the reconciliation handlers of the current client revision
are idempotent — a re-delivered `shape:added` is a no-op thanks to the
duplicate check, and re-delivered `shape:updated` / `shape:deleted` (identical
in both revisions) leave the state unchanged the second time; only the earlier
revision's `shape:added` duplicates. -/
theorem C7_idempotent_reconciliation :
    (∀ (s : Shape) (shapes : List Shape),
      clientAdded s (clientAdded s shapes) = clientAdded s shapes) ∧
    (∀ (id : String) (p : ShapePatch) (shapes : List Shape),
      clientUpdated id p (clientUpdated id p shapes) = clientUpdated id p shapes) ∧
    (∀ (id : String) (shapes : List Shape),
      clientDeleted id (clientDeleted id shapes) = clientDeleted id shapes) := by
  refine ⟨?_, ?_, ?_⟩
  · intro s shapes
    unfold clientAdded
    by_cases hc : (shapes.any fun x => x.id == s.id) = true
    · rw [if_pos hc, if_pos hc]
    · rw [if_neg hc]
      have : ((shapes ++ [s]).any fun x => x.id == s.id) = true := by
        simp [List.any_append]
      rw [if_pos this]
  · intro id p shapes
    unfold clientUpdated
    rw [List.map_map]
    refine List.map_congr_left fun t _ => ?_
    by_cases h : t.id = id
    · have hid : (applyPatch p t).id = id := by rw [applyPatch_id]; exact h
      simp only [Function.comp_apply, if_pos h, if_pos hid, applyPatch_idem]
    · simp only [Function.comp_apply, if_neg h]
  · intro id shapes
    simp [clientDeleted, List.filter_filter]
